import Mathlib

/-!
Verification of the graph-service ingestion core (src/server.js and
src/migrations) against its specification.

Modelling conventions, applied throughout:

* JavaScript JSON values are modelled by the mutual inductive `Jval`;
  objects are ordered association lists, exactly as JavaScript preserves
  property insertion order after `JSON.parse`.  Records produced by
  `JSON.parse` have pairwise-distinct keys, and field access is modelled
  by first-match lookup.
* `JSON.parse` itself is an uninterpreted parameter (`parse`) of
  the ingestion operation: every theorem quantifies over it, and concrete
  witnesses instantiate it with explicit finite functions.  Likewise the
  keyed digest `crypto.createHmac("sha256", secret)...digest("hex")` is a
  parameter (`hmac`), already specialised to the configured secret.
* `crypto.createHash("sha256").update(s).digest("hex")` is modelled by
  the abstract digest `shaHex`, taken to be injective (collision-freedom
  of SHA-256); equalities and inequalities of digests then correspond to
  those of their preimage strings.
* Wall-clock data (`new Date()`, `created_at`, `occurred_at`) is outside
  the functional model; such fields are rendered as `Jval.null`.
* JavaScript string lengths count UTF-16 code units; the model counts
  characters, which agrees on all inputs appearing here.
-/

mutual
/-- JSON values as JavaScript sees them: objects are ordered lists of
key/value pairs (property insertion order), arrays are ordered lists. -/
inductive Jval where
  | null
  | bool (b : Bool)
  | num (n : Int)
  | str (s : String)
  | arr (xs : JArr)
  | obj (fs : JObj)
deriving DecidableEq
inductive JArr where
  | nil
  | cons (hd : Jval) (tl : JArr)
deriving DecidableEq
inductive JObj where
  | nil
  | cons (key : String) (val : Jval) (tl : JObj)
deriving DecidableEq
end

/-- JavaScript truthiness of a JSON value (`Boolean(v)`): `null`, `false`,
`0` and `""` are falsy; every object and array is truthy. -/
def jsTruthy : Jval → Bool
  | .null => false
  | .bool b => b
  | .num n => n != 0
  | .str s => s != ""
  | .arr _ => true
  | .obj _ => true

/-- Truthiness of a possibly-absent property (`undefined` is falsy). -/
def jsTruthyOpt : Option Jval → Bool
  | some j => jsTruthy j
  | none => false

/-- First-match lookup in an object's ordered field list. -/
def jObjGet : JObj → String → Option Jval
  | .nil, _ => none
  | .cons k v t, key => if k = key then some v else jObjGet t key

/-- Property access `v.key`: `undefined` (modelled `none`) on non-objects. -/
def jGet : Jval → String → Option Jval
  | .obj fs, key => jObjGet fs key
  | _, _ => none

/-- Property access chained after a possibly-absent value. -/
def jGetOpt (v : Option Jval) (key : String) : Option Jval :=
  v.bind (fun j => jGet j key)

/-- The JavaScript expression `x || null` for a property access `x`:
a truthy value passes through, everything else (including a missing
property) becomes `null`. -/
def jsOrNull (v : Option Jval) : Jval :=
  match v with
  | some j => if jsTruthy j then j else .null
  | none => .null

/-- The JavaScript expression `x != null ? x : null` (loose inequality, so
`undefined` also maps to `null`, while `0`, `false` and `""` survive). -/
def jsKeepUnlessNull (v : Option Jval) : Jval :=
  match v with
  | some j => if j = .null then .null else j
  | none => .null

/-- JSON string escaping as performed by `JSON.stringify` (the escapes
exercised by this code base: quote, backslash and the common control
characters; other control characters never occur in the modelled data). -/
def jsonEscChar (c : Char) : String :=
  if c = '"' then "\\\""
  else if c = '\\' then "\\\\"
  else if c = '\n' then "\\n"
  else if c = '\r' then "\\r"
  else if c = '\t' then "\\t"
  else String.singleton c

/-- A JSON string literal: `JSON.stringify` of a string. -/
def jsonQuote (s : String) : String :=
  "\"" ++ String.join (s.data.map jsonEscChar) ++ "\""

mutual
/-- `JSON.stringify(v)`: serialises object fields in property order,
exactly as JavaScript does after `JSON.parse` (no key reordering). -/
def stringify : Jval → String
  | .null => "null"
  | .bool true => "true"
  | .bool false => "false"
  | .num n => toString n
  | .str s => jsonQuote s
  | .arr xs => "[" ++ stringifyArr xs ++ "]"
  | .obj fs => "\x7b" ++ stringifyObj fs ++ "\x7d"
def stringifyArr : JArr → String
  | .nil => ""
  | .cons h .nil => stringify h
  | .cons h (.cons h2 t) => stringify h ++ "," ++ stringifyArr (.cons h2 t)
def stringifyObj : JObj → String
  | .nil => ""
  | .cons k v .nil => jsonQuote k ++ ":" ++ stringify v
  | .cons k v (.cons k2 v2 t) =>
      jsonQuote k ++ ":" ++ stringify v ++ "," ++ stringifyObj (.cons k2 v2 t)
end

mutual
/-- JavaScript string coercion `String(v)` as used by the `+` operator:
strings pass through, numbers and booleans print, arrays join their
elements with commas (null elements become empty), objects print as
`[object Object]`. -/
def jsToString : Jval → String
  | .null => "null"
  | .bool true => "true"
  | .bool false => "false"
  | .num n => toString n
  | .str s => s
  | .arr xs => jsArrJoin xs
  | .obj _ => "[object Object]"
def jsArrJoin : JArr → String
  | .nil => ""
  | .cons h t =>
      (if h = Jval.null then "" else jsToString h) ++
      (match t with
       | .nil => ""
       | .cons h2 t2 => "," ++ jsArrJoin (.cons h2 t2))
end

/-- The JavaScript expression `(x || "")` coerced to a string by `+`. -/
def jsOrEmptyStr (v : Option Jval) : String :=
  match v with
  | some j => if jsTruthy j then jsToString j else ""
  | none => ""

/-- Value of a hexadecimal digit, `none` for non-hex characters. -/
def hexDigitVal (c : Char) : Option Nat :=
  if '0' ≤ c ∧ c ≤ '9' then some (c.toNat - 48)
  else if 'a' ≤ c ∧ c ≤ 'f' then some (c.toNat - 87)
  else if 'A' ≤ c ∧ c ≤ 'F' then some (c.toNat - 55)
  else none

/-- Node's `Buffer.from(s, "hex")`: decodes two hex digits per byte and
stops silently at the first invalid digit or at a dangling odd digit
(it never throws). -/
def hexBytes : List Char → List Nat
  | a :: b :: rest =>
    match hexDigitVal a, hexDigitVal b with
    | some x, some y => (16 * x + y) :: hexBytes rest
    | _, _ => []
  | _ => []

/-- Boolean test that one character list is a prefix of another. -/
def listStarts : List Char → List Char → Bool
  | [], _ => true
  | _ :: _, [] => false
  | a :: as, b :: bs => a = b && listStarts as bs

/-- `verifyHmacHeader(req, body)` from src/server.js: requires an
`X-Signature` header of the form `sha256=<hex>`, hex-decodes the tail
(Node semantics, `hexBytes`), and compares it with `timingSafeEqual`
against the digest of the exact body and against the digest of the body
with one trailing newline toggled.  `timingSafeEqual` on equal-length
buffers is modelled by byte-list equality; the code's `try/catch` is
unreachable because Node's hex decoding never throws.  The keyed digest
`hmacHex` is the parameter `hmac`. -/
def verifyHmacHeader (hmac : String → String) (header : Option String)
    (body : String) : Bool :=
  let h := header.getD ""
  if !(listStarts "sha256=".data h.data) then false
  else
    let gotHex := h.data.drop 7
    let exact := hmac body
    let alt :=
      if body.data.getLast? = some '\n' then hmac (String.mk body.data.dropLast)
      else hmac (body ++ "\n")
    let got := hexBytes gotHex
    let exp := hexBytes exact.data
    let altB := hexBytes alt.data
    (got.length = exp.length && got = exp) ||
      (got.length = altB.length && got = altB)

/-- Character of a decimal digit. -/
def digitCharOf (d : Nat) : Char := Char.ofNat (48 + d)

/-- Fuel-driven decimal digit list of a natural number (most significant
digit first); any fuel above the number itself is sufficient. -/
def natDigitsF : Nat → Nat → List Char
  | 0, _ => []
  | fuel + 1, n =>
    if n < 10 then [digitCharOf n]
    else natDigitsF fuel (n / 10) ++ [digitCharOf (n % 10)]

/-- Decimal rendering of a natural number, as Postgres `::text` renders
the serial ids handed to outbox payloads. -/
def natStr (n : Nat) : String := String.mk (natDigitsF (n + 1) n)

/-- Decimal value of a digit-character list, inverse to `natDigitsF`. -/
def decVal (l : List Char) : Nat :=
  l.foldl (fun a c => 10 * a + (c.toNat - 48)) 0

/-- One row of the `croutons` table, minus the generated serial id: the
eleven column values bound as `$1 .. $11` by the import insert
(`crouton_id, source_url, source_hash, corpus_id, triple, text,
confidence, verified_at, context_hash, contextually_verified,
verification_meta`).  SQL `NULL` is `Jval.null`; `verified_at` holds the
caller-supplied value when truthy and `Jval.null` for the code's
`new Date()` default (wall-clock, outside the model). -/
structure CroutonData where
  crouton_id : Jval
  source_url : Jval
  source_hash : String
  corpus_id : Jval
  triple : Jval
  text : Jval
  confidence : Jval
  verified_at : Jval
  context_hash : Jval
  contextually_verified : Jval
  verification_meta : Jval
deriving DecidableEq

/-- A committed `croutons` row: generated serial id plus column data. -/
structure CroutonRow where
  cid : Nat
  data : CroutonData
deriving DecidableEq

/-- A committed `triples` row: serial id, the three key columns and the
`evidence_crouton_id` column. -/
structure TripleRow where
  tid : Nat
  subject : Jval
  predicate : Jval
  object : Jval
  evidence : Jval
deriving DecidableEq

/-- An `outbox_graph_events` row as the triggers create it: `event_type`
and `payload`.  Fresh rows are born `status='pending'`, `attempts=0`;
those columns and `occurred_at` are never read by the modelled code. -/
structure OutboxEvent where
  event_type : String
  payload : JObj
deriving DecidableEq

/-- A row of `source_tracking.source_participation`, the external table
whose insert/update trigger (migration 011) feeds the outbox.  Only the
columns the trigger reads are modelled. -/
structure ParticipationRow where
  crouton_id : Jval
  source_domain : Jval
  source_url : Jval
  ai_readable_source : Bool
  markdown_discovered : Bool
  discovery_method : Jval
  first_observed : Jval
  last_verified : Jval
deriving DecidableEq

/-- The persistent store: the three tables and the serial counters. -/
structure Store where
  croutons : List CroutonRow
  triples : List TripleRow
  outbox : List OutboxEvent
  nextCroutonId : Nat
  nextTripleId : Nat
deriving DecidableEq

/-- The store of a freshly migrated database. -/
def emptyStore : Store := ⟨[], [], [], 1, 1⟩

/-- Payload of `fn_outbox_factlet_insert` (migration 003/008):
`jsonb_build_object('id', NEW.id::text, 'crouton_id', ..., 'source_url',
..., 'text', ..., 'corpus_id', ..., 'created_at', ...)`. -/
def croutonPayload (r : CroutonRow) : JObj :=
  .cons "id" (.str (natStr r.cid))
    (.cons "crouton_id" r.data.crouton_id
      (.cons "source_url" r.data.source_url
        (.cons "text" r.data.text
          (.cons "corpus_id" r.data.corpus_id
            (.cons "created_at" .null .nil)))))

/-- The outbox row appended by the croutons trigger for a new row. -/
def croutonEvent (r : CroutonRow) : OutboxEvent :=
  ⟨"factlet.insert", croutonPayload r⟩

/-- Payload of `fn_outbox_triple_insert` (migration 003/008):
`jsonb_build_object('id', NEW.id::text, 'subject', ..., 'predicate', ...,
'object', ..., 'evidence_crouton_id', ..., 'created_at', ...)`. -/
def triplePayload (t : TripleRow) : JObj :=
  .cons "id" (.str (natStr t.tid))
    (.cons "subject" t.subject
      (.cons "predicate" t.predicate
        (.cons "object" t.object
          (.cons "evidence_crouton_id" t.evidence
            (.cons "created_at" .null .nil)))))

/-- The outbox row appended by the triples trigger for a new row. -/
def tripleEvent (t : TripleRow) : OutboxEvent :=
  ⟨"triple.insert", triplePayload t⟩

/-- Payload of `source_tracking.notify_source_participation`
(migration 011). -/
def participationPayload (p : ParticipationRow) : JObj :=
  .cons "crouton_id" p.crouton_id
    (.cons "source_domain" p.source_domain
      (.cons "source_url" p.source_url
        (.cons "ai_readable_source" (.bool p.ai_readable_source)
          (.cons "markdown_discovered" (.bool p.markdown_discovered)
            (.cons "discovery_method" p.discovery_method
              (.cons "first_observed" p.first_observed
                (.cons "last_verified" p.last_verified .nil)))))))

/-- The store after a clean crouton insert: fresh row appended, outbox
event appended by the `AFTER INSERT` trigger in the same transaction,
serial advanced. -/
def insertedStore (st : Store) (d : CroutonData) : Store :=
  { st with
    croutons := st.croutons ++ [{ cid := st.nextCroutonId, data := d }]
    outbox := st.outbox ++ [croutonEvent { cid := st.nextCroutonId, data := d }]
    nextCroutonId := st.nextCroutonId + 1 }

/-- `INSERT INTO croutons ... ON CONFLICT (source_hash) DO NOTHING
RETURNING ...` together with the `AFTER INSERT` trigger
`trg_outbox_factlet_insert`, against the croutons constraints of
001_init.sql.  Postgres pre-checks the arbiter index of the ON CONFLICT
clause first, so a duplicate `source_hash` is silently skipped (row
count 0, no other constraint evaluated).  Otherwise the insert proceeds
and the `crouton_id TEXT UNIQUE` constraint — not covered by the ON
CONFLICT clause — raises a unique violation when a non-null `crouton_id`
duplicates an existing row's (`UNIQUE` permits any number of NULLs);
the handler's catch turns that into ROLLBACK and HTTP 500.  Result:
`some (rowCount = 1, store)` on success or skip, `none` on the
raised violation. -/
def insertCrouton (st : Store) (d : CroutonData) : Option (Bool × Store) :=
  if st.croutons.any (fun r => r.data.source_hash = d.source_hash) then
    some (false, st)
  else if d.crouton_id != Jval.null &&
      st.croutons.any (fun r => r.data.crouton_id = d.crouton_id) then
    none
  else
    some (true, insertedStore st d)

/-- The store as a direct writer leaves it: unchanged when the insert is
skipped or its transaction aborts on the unique violation. -/
def insertCroutonStore (st : Store) (d : CroutonData) : Store :=
  match insertCrouton st d with
  | some (_, st1) => st1
  | none => st

/-- `INSERT INTO triples (subject, predicate, object, evidence_crouton_id)
... ON CONFLICT (subject, predicate, object) DO NOTHING` together with
the `AFTER INSERT` trigger `trg_outbox_triple_insert`: a duplicate key is
silently absorbed (no insert, no trigger, no error). -/
def insertTriple (st : Store) (s p o ev : Jval) : Store :=
  if st.triples.any (fun t => t.subject = s && t.predicate = p && t.object = o)
  then st
  else
    let row : TripleRow := ⟨st.nextTripleId, s, p, o, ev⟩
    { st with
      triples := st.triples ++ [row]
      outbox := st.outbox ++ [tripleEvent row]
      nextTripleId := st.nextTripleId + 1 }

/-- `source_tracking.notify_source_participation` (migration 011), fired
`AFTER INSERT OR UPDATE` on the external participation table: appends one
`source_participation.insert` outbox event when the new row state has
`ai_readable_source = true OR markdown_discovered = true`, else nothing. -/
def participationNotify (st : Store) (p : ParticipationRow) : Store :=
  if p.ai_readable_source || p.markdown_discovered then
    { st with outbox := st.outbox ++ [⟨"source_participation.insert", participationPayload p⟩] }
  else st

/-- The hash preimage built by the import loop:
`(obj.source_url || "") + "|" + (obj.text || "") + "|" + tripleStr` with
`tripleStr = obj.triple ? JSON.stringify(obj.triple) : ""`. -/
def hashPreimage (obj : Jval) : String :=
  let tripleStr :=
    match jGet obj "triple" with
    | some t => if jsTruthy t then stringify t else ""
    | none => ""
  jsOrEmptyStr (jGet obj "source_url") ++ "|" ++
    jsOrEmptyStr (jGet obj "text") ++ "|" ++ tripleStr

/-- SHA-256 hex digest, modelled as an abstract injective digest: the
model identifies a digest with its preimage string (see the header
comment; dedupe equalities and inequalities transport along injectivity). -/
def shaHex (s : String) : String := s

/-- `source_hash` as the import loop computes it for a parsed record. -/
def sourceHashOf (obj : Jval) : String := shaHex (hashPreimage obj)

/-- The eleven column values the import loop binds for a parsed record.
`jsDate` is an uninterpreted parameter modelling `new Date(value)`
composed with the driver's parameter serialisation for the
`verified_at TIMESTAMPTZ` column: `some d` is the stored timestamp
value, `none` an invalid date whose serialisation throws inside
`client.query`, before any database work — the handler's catch turns
that into ROLLBACK and HTTP 500.  The code's `new Date()` default
(wall-clock now, always serialisable) is rendered as `Jval.null`. -/
def recordVals (jsDate : Jval → Option Jval) (obj : Jval) : Option CroutonData :=
  match
    (match jGet obj "verified_at" with
     | some t => if jsTruthy t then jsDate t else some .null
     | none => some .null) with
  | none => none
  | some vAt => some
    { crouton_id := jsOrNull (jGet obj "crouton_id")
      source_url := (jGet obj "source_url").getD .null
      source_hash := sourceHashOf obj
      corpus_id := jsOrNull (jGet obj "corpus_id")
      triple :=
        match jGet obj "triple" with
        | some t => if jsTruthy t then .str (stringify t) else .null
        | none => .null
      text := jsOrNull (jGet obj "text")
      confidence := jsKeepUnlessNull (jGet obj "confidence")
      verified_at := vAt
      context_hash := jsOrNull (jGet obj "context_hash")
      contextually_verified := jsKeepUnlessNull (jGet obj "contextually_verified")
      verification_meta :=
        match jGet obj "verification_meta" with
        | some t => if jsTruthy t then .str (stringify t) else .null
        | none => .null }

/-- The conditional triple upsert after an accepted crouton insert:
`if (obj.triple && obj.triple.subject && obj.triple.predicate &&
obj.triple.object)` then insert with `obj.crouton_id || null` as
evidence. -/
def tryInsertTriple (st : Store) (obj : Jval) : Store :=
  if jsTruthyOpt (jGet obj "triple") &&
     jsTruthyOpt (jGetOpt (jGet obj "triple") "subject") &&
     jsTruthyOpt (jGetOpt (jGet obj "triple") "predicate") &&
     jsTruthyOpt (jGetOpt (jGet obj "triple") "object") then
    insertTriple st
      ((jGetOpt (jGet obj "triple") "subject").getD .null)
      ((jGetOpt (jGet obj "triple") "predicate").getD .null)
      ((jGetOpt (jGet obj "triple") "object").getD .null)
      (jsOrNull (jGet obj "crouton_id"))
  else st

/-- `MAX_LINE_BYTES` from the import handler. -/
def MAX_LINE_BYTES : Nat := 100000

/-- Outcome of the per-line transaction loop: an abort (HTTP status and
error message, the transaction rolled back) or the accepted/skipped
counters together with the committed store. -/
inductive TxOut where
  | abort (status : Nat) (msg : String)
  | ok (accepted skipped : Nat) (st : Store)
deriving DecidableEq

/-- The body of the import loop over the remaining lines, mirroring the
`for` loop of `app.post('/import')`: oversized line ⇒ 413; unparseable
line ⇒ 400 naming the line by its 120-character prefix; falsy
`source_url` ⇒ 400; an invalid `verified_at` date (its serialisation
throws in `client.query`) or a `crouton_id` unique violation escapes to
the handler's catch, which rolls the transaction back and answers 500
`import_failed`; otherwise upsert the crouton (a duplicate hash counts
as skipped and moves on) and, when accepted, conditionally upsert the
embedded triple. -/
def runLines (parse : String → Option Jval) (jsDate : Jval → Option Jval) :
    List String → Nat → Nat → Store → TxOut
  | [], accepted, skipped, st => .ok accepted skipped st
  | line :: rest, accepted, skipped, st =>
    if line.data.length > MAX_LINE_BYTES then .abort 413 "line too large"
    else
      match parse line with
      | none =>
          .abort 400 ("invalid JSON line: " ++ String.mk (line.data.take 120) ++ "...")
      | some obj =>
          if !(jsTruthyOpt (jGet obj "source_url")) then
            .abort 400 "source_url is required"
          else
            match recordVals jsDate obj with
            | none => .abort 500 "import_failed"
            | some d =>
              match insertCrouton st d with
              | none => .abort 500 "import_failed"
              | some (false, st1) => runLines parse jsDate rest accepted (skipped + 1) st1
              | some (true, st1) =>
                  runLines parse jsDate rest (accepted + 1) skipped
                    (tryInsertTriple st1 obj)

/-- An HTTP response of the import endpoint: an error status with its
message, or the 200 body `{accepted, skipped, total}`. -/
inductive ImportResp where
  | err (status : Nat) (msg : String)
  | ok (accepted skipped total : Nat)
deriving DecidableEq

/-- `raw.split("\n").filter(Boolean)`: split on newlines and drop the
falsy (empty) lines.  Defined over the character list to mirror the byte
processing. -/
def splitNl : List Char → List (List Char)
  | [] => [[]]
  | c :: rest =>
    if c = '\n' then [] :: splitNl rest
    else
      match splitNl rest with
      | [] => [[c]]
      | h :: t => (c :: h) :: t

/-- The non-empty lines of the raw body, as strings. -/
def nonemptyLines (raw : String) : List String :=
  ((splitNl raw.data).map String.mk).filter (fun l => l ≠ "")

/-- `app.post('/import')` from src/server.js: empty body ⇒ 400; failed
signature ⇒ 401; no non-empty lines ⇒ 400; otherwise run the transaction
loop, rolling back (original store) on abort and committing (new store,
`{accepted, skipped, total}`) on success.  `parse` is `JSON.parse`
(uninterpreted), `hmac` the keyed digest of the configured secret. -/
def importOp (hmac : String → String) (parse : String → Option Jval)
    (jsDate : Jval → Option Jval) (header : Option String) (raw : String)
    (st : Store) : ImportResp × Store :=
  if raw = "" then (.err 400 "empty body", st)
  else if !(verifyHmacHeader hmac header raw) then
    (.err 401 "invalid signature", st)
  else if (nonemptyLines raw).isEmpty then (.err 400 "no lines", st)
  else
    match runLines parse jsDate (nonemptyLines raw) 0 0 st with
    | .abort status msg => (.err status msg, st)
    | .ok accepted skipped st1 => (.ok accepted skipped (nonemptyLines raw).length, st1)

/-- The store states reachable through the modelled writers: imports, the
direct row writers (backfills and other direct inserts also fire the
triggers; a failed direct insert rolls its transaction back), and
participation-table activity. -/
inductive Reachable : Store → Prop where
  | empty : Reachable emptyStore
  | imp (hmac : String → String) (parse : String → Option Jval)
      (jsDate : Jval → Option Jval) (header : Option String) (raw : String)
      {st : Store} :
      Reachable st → Reachable (importOp hmac parse jsDate header raw st).2
  | crouton (d : CroutonData) {st : Store} :
      Reachable st → Reachable (insertCroutonStore st d)
  | triple (s p o ev : Jval) {st : Store} :
      Reachable st → Reachable (insertTriple st s p o ev)
  | participation (p : ParticipationRow) {st : Store} :
      Reachable st → Reachable (participationNotify st p)

theorem digitCharOf_toNat (d : Nat) (h : d < 10) : (digitCharOf d).toNat = 48 + d := by
  interval_cases d <;> rfl

theorem decVal_append (l : List Char) (c : Char) :
    decVal (l ++ [c]) = 10 * decVal l + (c.toNat - 48) := by
  simp [decVal, List.foldl_append]

theorem natDigitsF_val : ∀ fuel n, n < fuel → decVal (natDigitsF fuel n) = n := by
  intro fuel
  induction fuel with
  | zero => intro n h; omega
  | succ f ih =>
    intro n h
    by_cases h10 : n < 10
    · have hc := digitCharOf_toNat n h10
      simp [natDigitsF, h10, decVal]
      omega
    · have hdiv : n / 10 < f := by
        have := Nat.div_lt_self (show 0 < n by omega) (show 1 < 10 by omega)
        omega
      have hm := digitCharOf_toNat (n % 10) (Nat.mod_lt _ (by omega))
      rw [natDigitsF]
      simp [h10]
      rw [decVal_append, ih _ hdiv, hm]
      omega

/-- Decimal rendering of serial ids is injective, so an outbox payload's
`id` field determines its source row. -/
theorem natStr_inj : Function.Injective natStr := by
  intro a b h
  have hd : natDigitsF (a + 1) a = natDigitsF (b + 1) b := by
    have := congrArg String.data h
    simpa [natStr] using this
  have ha := natDigitsF_val (a + 1) a (by omega)
  have hb := natDigitsF_val (b + 1) b (by omega)
  rw [hd, hb] at ha
  omega

/-- The internal store invariant maintained by every writer. -/
def StoreInv (st : Store) : Prop :=
  (∀ r ∈ st.croutons, r.cid < st.nextCroutonId) ∧
  st.croutons.Pairwise (fun a b => a.cid ≠ b.cid) ∧
  st.triples.Pairwise
    (fun a b => ¬(a.subject = b.subject ∧ a.predicate = b.predicate ∧ a.object = b.object)) ∧
  st.outbox.filter (fun e => e.event_type == "factlet.insert") = st.croutons.map croutonEvent ∧
  st.outbox.filter (fun e => e.event_type == "triple.insert") = st.triples.map tripleEvent ∧
  ∀ e ∈ st.outbox, e.event_type = "factlet.insert" ∨ e.event_type = "triple.insert" ∨
    e.event_type = "source_participation.insert"

theorem storeInv_empty : StoreInv emptyStore := by
  refine ⟨?_, ?_, ?_, ?_, ?_, ?_⟩ <;> simp [emptyStore, StoreInv]

theorem storeInv_insertedStore (st : Store) (d : CroutonData) (h : StoreInv st) :
    StoreInv (insertedStore st d) := by
  obtain ⟨h1, h2, h3, h4, h5, h6⟩ := h
  unfold insertedStore
  refine ⟨?_, ?_, ?_, ?_, ?_, ?_⟩
  · intro r hr
    simp only [List.mem_append, List.mem_singleton] at hr
    rcases hr with hr | hr
    · exact Nat.lt_succ_of_lt (h1 r hr)
    · subst hr; exact Nat.lt_succ_self _
  · rw [List.pairwise_append]
    refine ⟨h2, List.pairwise_singleton _ _, ?_⟩
    intro a ha b hb
    simp only [List.mem_singleton] at hb
    subst hb
    exact Nat.ne_of_lt (h1 a ha)
  · exact h3
  · rw [List.filter_append, h4]
    simp [croutonEvent]
  · rw [List.filter_append, h5]
    simp [croutonEvent]
  · intro e he
    simp only [List.mem_append, List.mem_singleton] at he
    rcases he with he | he
    · exact h6 e he
    · subst he; left; rfl

theorem insertCrouton_some (st : Store) (d : CroutonData) (b : Bool) (st1 : Store)
    (h : insertCrouton st d = some (b, st1)) :
    st1 = st ∨ st1 = insertedStore st d := by
  unfold insertCrouton at h
  split at h
  · left
    simp only [Option.some.injEq, Prod.mk.injEq] at h
    exact h.2.symm
  · split at h
    · simp at h
    · right
      simp only [Option.some.injEq, Prod.mk.injEq] at h
      exact h.2.symm

theorem storeInv_insertCroutonStore (st : Store) (d : CroutonData) (h : StoreInv st) :
    StoreInv (insertCroutonStore st d) := by
  unfold insertCroutonStore
  split
  · next b st1 hres =>
      rcases insertCrouton_some st d b st1 hres with rfl | rfl
      · exact h
      · exact storeInv_insertedStore st d h
  · exact h

theorem storeInv_insertTriple (st : Store) (s p o ev : Jval) (h : StoreInv st) :
    StoreInv (insertTriple st s p o ev) := by
  obtain ⟨h1, h2, h3, h4, h5, h6⟩ := h
  unfold insertTriple
  by_cases hc : st.triples.any (fun t => t.subject = s && t.predicate = p && t.object = o)
  · simpa [hc] using ⟨h1, h2, h3, h4, h5, h6⟩
  · simp only [hc, if_neg, Bool.false_eq_true, not_false_iff]
    refine ⟨h1, h2, ?_, ?_, ?_, ?_⟩
    · rw [List.pairwise_append]
      refine ⟨h3, List.pairwise_singleton _ _, ?_⟩
      intro a ha b hb
      simp only [List.mem_singleton] at hb
      subst hb
      simp only [List.any_eq_true, not_exists, not_and] at hc
      intro hkey
      have hcc := hc a ha
      simp only [Bool.and_eq_true, decide_eq_true_eq] at hcc
      exact hcc ⟨⟨hkey.1, hkey.2.1⟩, hkey.2.2⟩
    · rw [List.filter_append, h4]
      simp [tripleEvent]
    · rw [List.filter_append, h5]
      simp [tripleEvent]
    · intro e he
      simp only [List.mem_append, List.mem_singleton] at he
      rcases he with he | he
      · exact h6 e he
      · subst he; right; left; rfl

theorem storeInv_participationNotify (st : Store) (p : ParticipationRow) (h : StoreInv st) :
    StoreInv (participationNotify st p) := by
  obtain ⟨h1, h2, h3, h4, h5, h6⟩ := h
  unfold participationNotify
  by_cases hc : p.ai_readable_source || p.markdown_discovered
  · simp only [hc, if_pos]
    refine ⟨h1, h2, h3, ?_, ?_, ?_⟩
    · rw [List.filter_append, h4]; simp
    · rw [List.filter_append, h5]; simp
    · intro e he
      simp only [List.mem_append, List.mem_singleton] at he
      rcases he with he | he
      · exact h6 e he
      · subst he; right; right; rfl
  · simpa [hc] using ⟨h1, h2, h3, h4, h5, h6⟩

theorem storeInv_tryInsertTriple (st : Store) (obj : Jval) (h : StoreInv st) :
    StoreInv (tryInsertTriple st obj) := by
  unfold tryInsertTriple
  split
  · exact storeInv_insertTriple _ _ _ _ _ h
  · exact h

theorem storeInv_runLines (parse : String → Option Jval) (jsDate : Jval → Option Jval) :
    ∀ (ls : List String) (acc skip : Nat) (st : Store), StoreInv st →
      ∀ a s st', runLines parse jsDate ls acc skip st = .ok a s st' → StoreInv st'
  | [], acc, skip, st, h, a, s, st', heq => by
      simp only [runLines, TxOut.ok.injEq] at heq
      obtain ⟨-, -, h3⟩ := heq
      exact h3 ▸ h
  | line :: rest, acc, skip, st, h, a, s, st', heq => by
      rw [runLines] at heq
      split at heq
      · exact absurd heq (by simp)
      · split at heq
        · exact absurd heq (by simp)
        · next obj hobj =>
          split at heq
          · exact absurd heq (by simp)
          · split at heq
            · exact absurd heq (by simp)
            · next d hd =>
              split at heq
              · exact absurd heq (by simp)
              · next st1 hins =>
                  have hst1 : StoreInv st1 := by
                    rcases insertCrouton_some st d false st1 hins with rfl | rfl
                    · exact h
                    · exact storeInv_insertedStore st d h
                  exact storeInv_runLines parse jsDate rest acc (skip + 1) st1 hst1
                    a s st' heq
              · next st1 hins =>
                  have hst1 : StoreInv st1 := by
                    rcases insertCrouton_some st d true st1 hins with rfl | rfl
                    · exact h
                    · exact storeInv_insertedStore st d h
                  exact storeInv_runLines parse jsDate rest (acc + 1) skip
                    (tryInsertTriple st1 obj) (storeInv_tryInsertTriple st1 obj hst1)
                    a s st' heq

theorem storeInv_importOp (hmac : String → String) (parse : String → Option Jval)
    (jsDate : Jval → Option Jval) (header : Option String) (raw : String)
    (st : Store) (h : StoreInv st) :
    StoreInv (importOp hmac parse jsDate header raw st).2 := by
  unfold importOp
  split
  · exact h
  · split
    · exact h
    · split
      · exact h
      · split
        · exact h
        · next a s st1 heq =>
            exact storeInv_runLines parse jsDate (nonemptyLines raw) 0 0 st h a s st1 heq

theorem reachable_storeInv {st : Store} (h : Reachable st) : StoreInv st := by
  induction h with
  | empty => exact storeInv_empty
  | imp hmac parse jsDate header raw _ ih =>
      exact storeInv_importOp hmac parse jsDate header raw _ ih
  | crouton d _ ih => exact storeInv_insertCroutonStore _ d ih
  | triple s p o ev _ ih => exact storeInv_insertTriple _ s p o ev ih
  | participation p _ ih => exact storeInv_participationNotify _ p ih

/-- Does an outbox event match a triple keyed `(s, p, o)` in the sense of
the spec: `event_type='triple.insert'` with payload subject, predicate
and object equal to the row's key columns. -/
def tripleEvtMatch (s p o : Jval) (e : OutboxEvent) : Bool :=
  e.event_type == "triple.insert" &&
    jObjGet e.payload "subject" == some s &&
    jObjGet e.payload "predicate" == some p &&
    jObjGet e.payload "object" == some o

theorem tripleEvtMatch_tripleEvent (s p o : Jval) (t : TripleRow) :
    tripleEvtMatch s p o (tripleEvent t) =
      (t.subject == s && t.predicate == p && t.object == o) := by
  simp [tripleEvtMatch, tripleEvent, triplePayload, jObjGet]

theorem croutonEvent_cid (a b : CroutonRow) (h : croutonEvent a = croutonEvent b) :
    a.cid = b.cid := by
  simp only [croutonEvent, croutonPayload, OutboxEvent.mk.injEq, JObj.cons.injEq,
    Jval.str.injEq, true_and] at h
  exact natStr_inj h.1

theorem count_map_croutonEvent (l : List CroutonRow) (r : CroutonRow)
    (hp : l.Pairwise (fun a b => a.cid ≠ b.cid)) (hr : r ∈ l) :
    (l.map croutonEvent).count (croutonEvent r) = 1 := by
  induction l with
  | nil => simp at hr
  | cons hd tl ih =>
    obtain ⟨hhd, hptl⟩ := List.pairwise_cons.mp hp
    rcases List.mem_cons.mp hr with rfl | hmem
    · rw [List.map_cons, List.count_cons_self]
      have hz : (tl.map croutonEvent).count (croutonEvent r) = 0 := by
        rw [List.count_eq_zero]
        intro hmem2
        obtain ⟨b, hb, hbe⟩ := List.mem_map.mp hmem2
        exact hhd b hb (croutonEvent_cid b r hbe).symm
      omega
    · have hne : croutonEvent r ≠ croutonEvent hd := by
        intro he
        exact hhd r hmem (croutonEvent_cid hd r he.symm)
      rw [List.map_cons, List.count_cons_of_ne hne]
      exact ih hptl hmem

theorem tripleEvtMatch_event_false (t b : TripleRow)
    (h : ¬(t.subject = b.subject ∧ t.predicate = b.predicate ∧ t.object = b.object)) :
    tripleEvtMatch t.subject t.predicate t.object (tripleEvent b) = false := by
  rw [tripleEvtMatch_tripleEvent, Bool.eq_false_iff]
  intro hk
  simp only [Bool.and_eq_true, beq_iff_eq] at hk
  exact h ⟨hk.1.1.symm, hk.1.2.symm, hk.2.symm⟩

theorem length_filter_map_tripleEvent (l : List TripleRow) (t : TripleRow)
    (hp : l.Pairwise
      (fun a b => ¬(a.subject = b.subject ∧ a.predicate = b.predicate ∧ a.object = b.object)))
    (ht : t ∈ l) :
    ((l.map tripleEvent).filter (tripleEvtMatch t.subject t.predicate t.object)).length = 1 := by
  induction l with
  | nil => simp at ht
  | cons hd tl ih =>
    obtain ⟨hhd, hptl⟩ := List.pairwise_cons.mp hp
    rcases List.mem_cons.mp ht with rfl | hmem
    · rw [List.map_cons, List.filter_cons_of_pos (by simp [tripleEvtMatch_tripleEvent])]
      have hz : ((tl.map tripleEvent).filter
          (tripleEvtMatch t.subject t.predicate t.object)).length = 0 := by
        rw [List.length_eq_zero, List.filter_eq_nil_iff]
        intro e he
        obtain ⟨b, hb, hbe⟩ := List.mem_map.mp he
        subst hbe
        simp [tripleEvtMatch_event_false t b (hhd b hb)]
      simp [hz]
    · have hne : tripleEvtMatch t.subject t.predicate t.object (tripleEvent hd) = false := by
        apply tripleEvtMatch_event_false
        intro hk
        exact hhd t hmem ⟨hk.1.symm, hk.2.1.symm, hk.2.2.symm⟩
      rw [List.map_cons, List.filter_cons_of_neg (by simp [hne])]
      exact ih hptl hmem

theorem count_eq_count_filter {α : Type} [DecidableEq α] (l : List α) (p : α → Bool)
    (a : α) (ha : p a = true) : (l.filter p).count a = l.count a := by
  induction l with
  | nil => rfl
  | cons hd tl ih =>
    by_cases he : hd = a
    · subst he
      rw [List.filter_cons_of_pos ha, List.count_cons_self, List.count_cons_self, ih]
    · by_cases hph : p hd = true
      · rw [List.filter_cons_of_pos hph, List.count_cons_of_ne (Ne.symm he),
          List.count_cons_of_ne (Ne.symm he), ih]
      · rw [List.filter_cons_of_neg (by simp [hph]), List.count_cons_of_ne (Ne.symm he), ih]

theorem filter_of_filter_sub {α : Type} (l : List α) (p q : α → Bool)
    (himp : ∀ x, q x = true → p x = true) :
    (l.filter p).filter q = l.filter q := by
  induction l with
  | nil => rfl
  | cons hd tl ih =>
    by_cases hq : q hd = true
    · rw [List.filter_cons_of_pos (himp hd hq), List.filter_cons_of_pos hq,
        List.filter_cons_of_pos hq, ih]
    · by_cases hph : p hd = true
      · rw [List.filter_cons_of_pos hph, List.filter_cons_of_neg (by simp [hq]),
          List.filter_cons_of_neg (by simp [hq]), ih]
      · rw [List.filter_cons_of_neg (by simp [hph]), List.filter_cons_of_neg (by simp [hq]), ih]

theorem croutonEvent_factletP (r : CroutonRow) :
    ((croutonEvent r).event_type == "factlet.insert") = true := rfl

theorem tripleEvtMatch_tripleP (s p o : Jval) (e : OutboxEvent)
    (h : tripleEvtMatch s p o e = true) : (e.event_type == "triple.insert") = true := by
  simp only [tripleEvtMatch, Bool.and_eq_true] at h
  exact h.1.1.1

/-- For every committed crouton row exactly one outbox event snapshots it,
for every triple row exactly one `triple.insert` event carries its key,
and conversely every `factlet.insert` / `triple.insert` event corresponds
to a committed row. -/
def outboxCoupled (st : Store) : Prop :=
  (∀ r ∈ st.croutons, st.outbox.count (croutonEvent r) = 1) ∧
  (∀ t ∈ st.triples,
    (st.outbox.filter (tripleEvtMatch t.subject t.predicate t.object)).length = 1) ∧
  (∀ e ∈ st.outbox, e.event_type = "triple.insert" →
    ∃ t ∈ st.triples, tripleEvtMatch t.subject t.predicate t.object e = true) ∧
  (∀ e ∈ st.outbox, e.event_type = "factlet.insert" →
    ∃ r ∈ st.croutons, e = croutonEvent r)

theorem storeInv_outboxCoupled {st : Store} (h : StoreInv st) : outboxCoupled st := by
  obtain ⟨h1, h2, h3, h4, h5, h6⟩ := h
  refine ⟨?_, ?_, ?_, ?_⟩
  · intro r hr
    rw [← count_eq_count_filter st.outbox (fun e => e.event_type == "factlet.insert")
      (croutonEvent r) (croutonEvent_factletP r), h4]
    exact count_map_croutonEvent st.croutons r h2 hr
  · intro t ht
    rw [← filter_of_filter_sub st.outbox (fun e => e.event_type == "triple.insert")
      (tripleEvtMatch t.subject t.predicate t.object)
      (tripleEvtMatch_tripleP t.subject t.predicate t.object), h5]
    exact length_filter_map_tripleEvent st.triples t h3 ht
  · intro e he htype
    have hmem : e ∈ st.outbox.filter (fun e => e.event_type == "triple.insert") := by
      rw [List.mem_filter]
      exact ⟨he, by simp [htype]⟩
    rw [h5] at hmem
    obtain ⟨t, ht, hte⟩ := List.mem_map.mp hmem
    exact ⟨t, ht, by rw [← hte]; simp [tripleEvtMatch_tripleEvent]⟩
  · intro e he htype
    have hmem : e ∈ st.outbox.filter (fun e => e.event_type == "factlet.insert") := by
      rw [List.mem_filter]
      exact ⟨he, by simp [htype]⟩
    rw [h4] at hmem
    obtain ⟨r, hr, hre⟩ := List.mem_map.mp hmem
    exact ⟨r, hr, hre.symm⟩


-- Shared concrete fixtures for witnesses.

/-- A witness keyed digest (the modelled HMAC of the configured secret). -/
def wHmac : String → String := fun _ => "aa"

/-- A witness date conversion: every caller value is a valid date. -/
def wDate : Jval → Option Jval := fun v => some v

/-- A witness embedded triple object, in subject/predicate/object order. -/
def wTripleObj : Jval :=
  .obj (.cons "subject" (.str "A")
    (.cons "predicate" (.str "offers")
      (.cons "object" (.str "B") .nil)))

/-- A witness record carrying a source reference, text and a triple. -/
def wObj : Jval :=
  .obj (.cons "source_url" (.str "https://x/a")
    (.cons "text" (.str "t1")
      (.cons "triple" wTripleObj .nil)))

/-- A witness `JSON.parse`: line `a` parses to `wObj`, all else fails. -/
def wParse : String → Option Jval := fun s =>
  if s = "a" then some wObj else none

/-- The store after one successful one-line import on a fresh database. -/
def wStore : Store := (importOp wHmac wParse wDate (some "sha256=aa") "a" emptyStore).2

theorem wStore_reachable : Reachable wStore :=
  Reachable.imp wHmac wParse wDate (some "sha256=aa") "a" Reachable.empty

theorem runLines_sum (parse : String → Option Jval) (jsDate : Jval → Option Jval) :
    ∀ (ls : List String) (acc skip : Nat) (st : Store) (a s : Nat) (st' : Store),
    runLines parse jsDate ls acc skip st = .ok a s st' → a + s = acc + skip + ls.length
  | [], acc, skip, st, a, s, st', heq => by
      simp only [runLines, TxOut.ok.injEq] at heq
      obtain ⟨h1, h2, -⟩ := heq
      simp only [List.length_nil]
      omega
  | line :: rest, acc, skip, st, a, s, st', heq => by
      rw [runLines] at heq
      split at heq
      · exact absurd heq (by simp)
      · split at heq
        · exact absurd heq (by simp)
        · next obj hobj =>
          split at heq
          · exact absurd heq (by simp)
          · split at heq
            · exact absurd heq (by simp)
            · next d hd =>
              split at heq
              · exact absurd heq (by simp)
              · next st1 hins =>
                  have := runLines_sum parse jsDate rest acc (skip + 1) st1 a s st' heq
                  simp only [List.length_cons]
                  omega
              · next st1 hins =>
                  have := runLines_sum parse jsDate rest (acc + 1) skip
                    (tryInsertTriple st1 obj) a s st' heq
                  simp only [List.length_cons]
                  omega

theorem splitNl_ne_nil : ∀ l : List Char, ∃ h t, splitNl l = h :: t
  | [] => ⟨[], [], rfl⟩
  | c :: rest => by
      by_cases hc : c = '\n'
      · exact ⟨[], splitNl rest, by rw [splitNl, if_pos hc]⟩
      · obtain ⟨h, t, hs⟩ := splitNl_ne_nil rest
        exact ⟨c :: h, t, by rw [splitNl, if_neg hc, hs]⟩

theorem splitNl_append_nl : ∀ l : List Char, splitNl (l ++ ['\n']) = splitNl l ++ [[]]
  | [] => rfl
  | c :: rest => by
      by_cases hc : c = '\n'
      · rw [List.cons_append, splitNl, if_pos hc, splitNl_append_nl rest, splitNl, if_pos hc,
          List.cons_append]
      · obtain ⟨h, t, hs⟩ := splitNl_ne_nil rest
        rw [List.cons_append, splitNl, if_neg hc, splitNl_append_nl rest, hs,
          List.cons_append, splitNl, if_neg hc, hs, List.cons_append]

theorem splitNl_all_nl : ∀ l : List Char, (∀ c ∈ l, c = '\n') →
    ∀ x ∈ splitNl l, x = []
  | [], _, x, hx => by
      simp only [splitNl, List.mem_singleton] at hx
      exact hx
  | c :: rest, hall, x, hx => by
      have hc : c = '\n' := hall c (List.mem_cons_self c rest)
      rw [splitNl, if_pos hc] at hx
      rcases List.mem_cons.mp hx with rfl | hx2
      · rfl
      · exact splitNl_all_nl rest (fun d hd => hall d (List.mem_cons_of_mem c hd)) x hx2

theorem data_append (a b : String) : (a ++ b).data = a.data ++ b.data := rfl

theorem nonemptyLines_all_nl (raw : String) (hall : ∀ c ∈ raw.data, c = '\n') :
    nonemptyLines raw = [] := by
  rw [nonemptyLines, List.filter_eq_nil_iff]
  intro l hl
  obtain ⟨x, hx, hxl⟩ := List.mem_map.mp hl
  have := splitNl_all_nl raw.data hall x hx
  subst this
  simp [← hxl]

theorem nonemptyLines_append_nl (raw : String) :
    nonemptyLines (raw ++ "\n") = nonemptyLines raw := by
  rw [nonemptyLines, nonemptyLines, data_append]
  show (((splitNl (raw.data ++ ['\n'])).map String.mk).filter (fun l => l ≠ "")) = _
  rw [splitNl_append_nl, List.map_append, List.filter_append]
  simp

/-- C9 (counterexample): an empty body with no (hence unverifiable)
signature is answered with HTTP 400 `empty body`, not HTTP 401: the
emptiness check precedes signature verification, contradicting the claim
that every unverified request — including an empty body — receives 401. -/
theorem c9_empty_body_bypasses_signature :
    importOp wHmac wParse wDate none "" emptyStore = (.err 400 "empty body", emptyStore) ∧
    verifyHmacHeader wHmac none "" = false ∧
    (ImportResp.err 400 "empty body" ≠ ImportResp.err 401 "invalid signature") :=
  ⟨by decide, by decide, by decide⟩

/-- C9 (amended): for every non-empty body, signature verification over
the whole raw body happens before any parsing or validation, and failure
rejects the entire request with HTTP 401 and no store change, whatever
the body contains; an empty body is rejected earlier with HTTP 400
(`empty body`) without consulting the signature. -/
theorem c9_signature_first :
    (∀ (hmac : String → String) (parse : String → Option Jval)
      (jsDate : Jval → Option Jval) (header : Option String)
      (raw : String) (st : Store), raw ≠ "" →
      verifyHmacHeader hmac header raw = false →
      importOp hmac parse jsDate header raw st = (.err 401 "invalid signature", st)) ∧
    (∀ (hmac : String → String) (parse : String → Option Jval)
      (jsDate : Jval → Option Jval) (header : Option String)
      (st : Store), importOp hmac parse jsDate header "" st = (.err 400 "empty body", st)) := by
  constructor
  · intro hmac parse jsDate header raw st hne hsig
    unfold importOp
    rw [if_neg hne, if_pos (by simp [hsig])]
  · intro hmac parse jsDate header st
    unfold importOp
    rw [if_pos rfl]

/-- C9 witness: a concrete garbage body with a bad signature header is
rejected 401 untouched, and a concrete empty body is rejected 400. -/
theorem c9_signature_first_witness :
    importOp wHmac wParse wDate (some "sha256=00") "nonsense" emptyStore =
      (.err 401 "invalid signature", emptyStore) ∧
    importOp wHmac wParse wDate none "" emptyStore = (.err 400 "empty body", emptyStore) :=
  ⟨c9_signature_first.1 wHmac wParse wDate (some "sha256=00") "nonsense" emptyStore
      (by decide) (by decide),
    c9_signature_first.2 wHmac wParse wDate none emptyStore⟩

/-- C10 (confirmed): every accepted batch reports `accepted + skipped =
total` with `total` the number of non-empty lines of the raw body; a
non-empty body consisting solely of newlines (with a valid signature) is
rejected 400 `no lines`; and appending a trailing newline to a body
changes its non-empty line list not at all — blank lines are dropped
before processing, never counted and never a rejection reason by
themselves. -/
theorem c10_counts_total_nonempty_lines :
    (∀ (hmac : String → String) (parse : String → Option Jval)
      (jsDate : Jval → Option Jval) (header : Option String)
      (raw : String) (st : Store) (a s t : Nat) (st' : Store),
      importOp hmac parse jsDate header raw st = (.ok a s t, st') →
      a + s = t ∧ t = (nonemptyLines raw).length) ∧
    (∀ (hmac : String → String) (parse : String → Option Jval)
      (jsDate : Jval → Option Jval) (header : Option String)
      (raw : String) (st : Store), raw ≠ "" → (∀ c ∈ raw.data, c = '\n') →
      verifyHmacHeader hmac header raw = true →
      importOp hmac parse jsDate header raw st = (.err 400 "no lines", st)) ∧
    (∀ raw : String, nonemptyLines (raw ++ "\n") = nonemptyLines raw) := by
  refine ⟨?_, ?_, nonemptyLines_append_nl⟩
  · intro hmac parse jsDate header raw st a s t st' h
    unfold importOp at h
    split at h
    · simp at h
    · split at h
      · simp at h
      · split at h
        · simp at h
        · split at h
          · simp at h
          · next a0 s0 st1 heq =>
              have hsum := runLines_sum parse jsDate (nonemptyLines raw) 0 0 st a0 s0 st1 heq
              simp only [Prod.mk.injEq, ImportResp.ok.injEq] at h
              obtain ⟨⟨ha, hs, ht⟩, -⟩ := h
              subst ha hs ht
              omega
  · intro hmac parse jsDate header raw st hne hall hsig
    unfold importOp
    rw [if_neg hne, if_neg (by simp [hsig]),
      if_pos (by simp [nonemptyLines_all_nl raw hall])]

/-- C10 witness: a successful run, an all-newline body, and a trailing
newline, all concrete. -/
theorem c10_counts_total_nonempty_lines_witness :
    (1 + 0 = 1 ∧ 1 = (nonemptyLines "a").length) ∧
    importOp wHmac wParse wDate (some "sha256=aa") "\n" emptyStore =
      (.err 400 "no lines", emptyStore) ∧
    nonemptyLines ("a" ++ "\n") = nonemptyLines "a" :=
  ⟨c10_counts_total_nonempty_lines.1 wHmac wParse wDate (some "sha256=aa") "a" emptyStore
      1 0 1 wStore (by decide),
    c10_counts_total_nonempty_lines.2.1 wHmac wParse wDate (some "sha256=aa") "\n" emptyStore
      (by decide) (by decide) (by decide),
    c10_counts_total_nonempty_lines.2.2 "a"⟩

/-- C6 (confirmed): re-inserting an existing `(subject, predicate,
object)` triple — in the same batch or a later one, with the same or a
different evidence value — is a complete no-op: the store is unchanged
(so every field of the existing row, `evidence_crouton_id` included,
survives), no error arises (`ON CONFLICT DO NOTHING` has no error
outcome), and a key absent beforehand ends up in exactly one row carrying
the first writer's evidence. -/
theorem c6_triple_reinsert_noop (st : Store) (s p o e1 e2 : Jval) :
    insertTriple (insertTriple st s p o e1) s p o e2 = insertTriple st s p o e1 ∧
    (st.triples.filter (fun t => t.subject = s && t.predicate = p && t.object = o) = [] →
      (insertTriple st s p o e1).triples.filter
          (fun t => t.subject = s && t.predicate = p && t.object = o) =
        [⟨st.nextTripleId, s, p, o, e1⟩]) := by
  constructor
  · by_cases hc : st.triples.any (fun t => t.subject = s && t.predicate = p && t.object = o) = true
    · have h1 : insertTriple st s p o e1 = st := by rw [insertTriple, if_pos hc]
      rw [h1, insertTriple, if_pos hc]
    · have h1 : insertTriple st s p o e1 =
          { st with
            triples := st.triples ++ [⟨st.nextTripleId, s, p, o, e1⟩]
            outbox := st.outbox ++ [tripleEvent ⟨st.nextTripleId, s, p, o, e1⟩]
            nextTripleId := st.nextTripleId + 1 } := by
        rw [insertTriple, if_neg hc]
      rw [h1, insertTriple, if_pos (by simp)]
  · intro hempty
    have hc : ¬(st.triples.any
        (fun t => t.subject = s && t.predicate = p && t.object = o) = true) := by
      rw [List.any_eq_true]
      rintro ⟨t, ht, hpred⟩
      have := List.filter_eq_nil_iff.mp hempty t ht
      exact this hpred
    rw [insertTriple, if_neg hc]
    show (st.triples ++ [(⟨st.nextTripleId, s, p, o, e1⟩ : TripleRow)]).filter _ = _
    rw [List.filter_append, hempty]
    simp

/-- C6 witness: a concrete double insert of the same key with different
evidence values. -/
theorem c6_triple_reinsert_noop_witness :
    insertTriple (insertTriple emptyStore (.str "A") (.str "offers") (.str "B") (.str "e1"))
        (.str "A") (.str "offers") (.str "B") (.str "e2") =
      insertTriple emptyStore (.str "A") (.str "offers") (.str "B") (.str "e1") ∧
    (insertTriple emptyStore (.str "A") (.str "offers") (.str "B") (.str "e1")).triples.filter
        (fun t => t.subject = .str "A" && t.predicate = .str "offers" && t.object = .str "B") =
      [⟨1, .str "A", .str "offers", .str "B", .str "e1"⟩] :=
  ⟨(c6_triple_reinsert_noop emptyStore (.str "A") (.str "offers") (.str "B")
      (.str "e1") (.str "e2")).1,
    (c6_triple_reinsert_noop emptyStore (.str "A") (.str "offers") (.str "B")
      (.str "e1") (.str "e2")).2 (by decide)⟩

/-- C7 (confirmed): in every reachable store state the outbox is exactly
coupled to the committed rows: each crouton row has exactly one event
snapshotting it, each triple row has exactly one `triple.insert` event
carrying its subject/predicate/object, and conversely every such event
corresponds to a committed row — events are appended by the triggers in
the same transaction as the write, and rolled-back transactions leave
neither rows nor events. -/
theorem c7_outbox_write_coupling {st : Store} (h : Reachable st) : outboxCoupled st :=
  storeInv_outboxCoupled (reachable_storeInv h)

/-- C7 witness: the coupling invariant instantiated at a concrete
reachable store holding one crouton row, one triple row and two events. -/
theorem c7_outbox_write_coupling_witness :
    wStore.croutons.length = 1 ∧ wStore.triples.length = 1 ∧
    wStore.outbox.length = 2 ∧ outboxCoupled wStore :=
  ⟨by decide, by decide, by decide, c7_outbox_write_coupling wStore_reachable⟩

/-- A witness participation row with the published flag set. -/
def wPart : ParticipationRow :=
  ⟨.str "c1", .str "x.com", .str "https://x/a", true, false, .null, .null, .null⟩

/-- C8 (counterexample): the event types the system actually writes are
`factlet.insert` and `source_participation.insert`, neither of which lies
in the claimed set `{fact.insert, triple.insert, participation.insert}`:
a committed fact row is announced as `factlet.insert`, not `fact.insert`,
and a published participation row as `source_participation.insert`, not
`participation.insert`. -/
theorem c8_actual_event_type_strings :
    wStore.outbox.map OutboxEvent.event_type = ["factlet.insert", "triple.insert"] ∧
    "factlet.insert" ∉ (["fact.insert", "triple.insert", "participation.insert"] : List String) ∧
    (participationNotify wStore wPart).outbox.map OutboxEvent.event_type =
      ["factlet.insert", "triple.insert", "source_participation.insert"] ∧
    "source_participation.insert" ∉
      (["fact.insert", "triple.insert", "participation.insert"] : List String) :=
  ⟨by decide, by decide, by decide, by decide⟩

/-- C8 (amended): every outbox event ever created carries an event type
drawn from exactly the set `{factlet.insert, triple.insert,
source_participation.insert}`; the event for a committed crouton row has
type `factlet.insert`, and a published participation row is announced
with one appended `source_participation.insert` event. -/
theorem c8_event_type_set {st : Store} (h : Reachable st) :
    (∀ e ∈ st.outbox, e.event_type = "factlet.insert" ∨ e.event_type = "triple.insert" ∨
      e.event_type = "source_participation.insert") ∧
    (∀ p : ParticipationRow, (p.ai_readable_source || p.markdown_discovered) = true →
      participationNotify st p =
        { st with outbox :=
            st.outbox ++ [⟨"source_participation.insert", participationPayload p⟩] }) ∧
    (∀ r ∈ st.croutons, croutonEvent r ∈ st.outbox ∧
      (croutonEvent r).event_type = "factlet.insert") := by
  obtain ⟨h1, h2, h3, h4, h5, h6⟩ := reachable_storeInv h
  refine ⟨h6, ?_, ?_⟩
  · intro p hp
    rw [participationNotify, if_pos hp]
  · intro r hr
    refine ⟨?_, rfl⟩
    have hmem : croutonEvent r ∈ st.croutons.map croutonEvent :=
      List.mem_map.mpr ⟨r, hr, rfl⟩
    rw [← h4] at hmem
    exact (List.mem_filter.mp hmem).1

/-- C8 witness: the amended event-type set at a concrete reachable store. -/
theorem c8_event_type_set_witness :
    (∀ e ∈ wStore.outbox, e.event_type = "factlet.insert" ∨ e.event_type = "triple.insert" ∨
      e.event_type = "source_participation.insert") ∧
    (∀ p : ParticipationRow, (p.ai_readable_source || p.markdown_discovered) = true →
      participationNotify wStore p =
        { wStore with outbox :=
            wStore.outbox ++ [⟨"source_participation.insert", participationPayload p⟩] }) ∧
    (∀ r ∈ wStore.croutons, croutonEvent r ∈ wStore.outbox ∧
      (croutonEvent r).event_type = "factlet.insert") :=
  c8_event_type_set wStore_reachable

-- C3: characterisation of the signature verifier.

/-- Pairwise hex decoding of an (even-length, all-hex) character list. -/
def decodePairs : List Char → List Nat
  | a :: b :: rest =>
    (16 * (hexDigitVal a).getD 0 + (hexDigitVal b).getD 0) :: decodePairs rest
  | _ => []

/-- The longest even-length prefix of hexadecimal digits. -/
def evenHexPrefix (l : List Char) : List Char :=
  (l.takeWhile (fun c => (hexDigitVal c).isSome)).take
    (2 * ((l.takeWhile (fun c => (hexDigitVal c).isSome)).length / 2))

/-- Spec-side reading of Node's hex decoding: decode the longest
even-length hex-digit prefix, ignore the rest. -/
def specHexDecode (l : List Char) : List Nat := decodePairs (evenHexPrefix l)

theorem takeWhileHex_cons_pos (c : Char) (l : List Char)
    (hc : (hexDigitVal c).isSome = true) :
    List.takeWhile (fun c => (hexDigitVal c).isSome) (c :: l) =
      c :: List.takeWhile (fun c => (hexDigitVal c).isSome) l := by
  rw [List.takeWhile_cons, if_pos hc]

theorem takeWhileHex_cons_neg (c : Char) (l : List Char)
    (hc : (hexDigitVal c).isSome = false) :
    List.takeWhile (fun c => (hexDigitVal c).isSome) (c :: l) = [] := by
  rw [List.takeWhile_cons, if_neg (by simp [hc])]

theorem evenHexPrefix_cons2 (a b : Char) (rest : List Char)
    (ha : (hexDigitVal a).isSome = true) (hb : (hexDigitVal b).isSome = true) :
    evenHexPrefix (a :: b :: rest) = a :: b :: evenHexPrefix rest := by
  unfold evenHexPrefix
  rw [takeWhileHex_cons_pos a _ ha, takeWhileHex_cons_pos b _ hb]
  simp only [List.length_cons]
  have h2 : ((rest.takeWhile (fun c => (hexDigitVal c).isSome)).length + 1 + 1) / 2 =
      (rest.takeWhile (fun c => (hexDigitVal c).isSome)).length / 2 + 1 := by omega
  rw [h2, Nat.mul_add, Nat.mul_one]
  rw [show 2 * ((rest.takeWhile (fun c => (hexDigitVal c).isSome)).length / 2) + 2 =
    ((2 * ((rest.takeWhile (fun c => (hexDigitVal c).isSome)).length / 2)) + 1) + 1 by omega]
  rw [List.take_succ_cons, List.take_succ_cons]

theorem hexBytes_eq_specHexDecode : ∀ l : List Char, hexBytes l = specHexDecode l
  | [] => rfl
  | [a] => by
      have h0 : hexBytes [a] = [] := rfl
      rw [h0, specHexDecode, evenHexPrefix]
      by_cases ha : (hexDigitVal a).isSome = true
      · rw [takeWhileHex_cons_pos a _ ha]
        simp [decodePairs]
      · rw [takeWhileHex_cons_neg a _ (by simpa using ha)]
        simp [decodePairs]
  | a :: b :: rest => by
      by_cases ha : (hexDigitVal a).isSome = true
      · by_cases hb : (hexDigitVal b).isSome = true
        · obtain ⟨x, hx⟩ := Option.isSome_iff_exists.mp ha
          obtain ⟨y, hy⟩ := Option.isSome_iff_exists.mp hb
          rw [hexBytes, hx, hy, specHexDecode, evenHexPrefix_cons2 a b rest ha hb, decodePairs,
            hx, hy, hexBytes_eq_specHexDecode rest]
          rfl
        · have hbn : hexDigitVal b = none := Option.not_isSome_iff_eq_none.mp (by simpa using hb)
          obtain ⟨x, hx⟩ := Option.isSome_iff_exists.mp ha
          have h0 : hexBytes (a :: b :: rest) = [] := by
            rw [hexBytes, hx, hbn]
          rw [h0, specHexDecode, evenHexPrefix, takeWhileHex_cons_pos a _ ha,
            takeWhileHex_cons_neg b _ (by simpa using hb)]
          simp [decodePairs]
      · have han : hexDigitVal a = none := Option.not_isSome_iff_eq_none.mp (by simpa using ha)
        have h0 : hexBytes (a :: b :: rest) = [] := by
          rcases hvb : hexDigitVal b with _ | y
          · rw [hexBytes, han, hvb]
          · rw [hexBytes, han, hvb]
        rw [h0, specHexDecode, evenHexPrefix,
          takeWhileHex_cons_neg a _ (by simpa using ha)]
        simp [decodePairs]
theorem lengthGuard_eq (a b : List Nat) :
    ((decide (a.length = b.length)) && (decide (a = b))) = (a == b) := by
  by_cases h : a = b
  · subst h
    simp
  · simp [h]

/-- The body with one trailing newline toggled, as both the code and the
spec describe it. -/
def toggleNl (body : String) : String :=
  if body.data.getLast? = some '\n' then String.mk body.data.dropLast
  else body ++ "\n"

/-- Spec-side acceptance condition, written from the spec's words: the
header is `sha256=<t>` and the longest even-length hex prefix of `t`
decodes to the digest bytes of the exact body or of the body with one
trailing newline toggled. -/
def specSigAccepts (hmac : String → String) (header : Option String)
    (body : String) : Bool :=
  match header with
  | none => false
  | some h =>
    listStarts "sha256=".data h.data &&
      (specHexDecode (h.data.drop 7) == specHexDecode (hmac body).data ||
        specHexDecode (h.data.drop 7) == specHexDecode (hmac (toggleNl body)).data)

/-- C3 (amended): the verifier accepts exactly the headers `sha256=<t>`
whose longest even-length hex-digit prefix of `t` decodes to the digest
bytes of the exact body or of the body with one trailing newline toggled
— Node's hex decoding truncates at the first invalid digit instead of
rejecting, so trailing garbage after a correct digest is tolerated; any
missing header, header without the `sha256=` prefix, or prefix decoding
to different bytes yields false (the `timingSafeEqual` comparison is
modelled functionally; its constant-time nature is a timing property
outside this model). -/
theorem c3_verifier_accepts_iff (hmac : String → String) (header : Option String)
    (body : String) :
    verifyHmacHeader hmac header body = specSigAccepts hmac header body := by
  cases header with
  | none => rfl
  | some h =>
      simp only [verifyHmacHeader, specSigAccepts, Option.getD_some, toggleNl]
      by_cases hs : listStarts "sha256=".data h.data = true
      · simp only [hs, Bool.not_true, Bool.false_eq_true, if_false, Bool.true_and]
        rw [lengthGuard_eq, lengthGuard_eq, hexBytes_eq_specHexDecode,
          hexBytes_eq_specHexDecode, hexBytes_eq_specHexDecode, apply_ite hmac]
      · have hs0 : listStarts "sha256=".data h.data = false := by
          simpa using hs
        simp [hs0]

/-- Strict reading of the original claim: the tail of the header must be
entirely well-formed hex of even length and decode to one of the two
digests. -/
def claimedSigAccepts (hmac : String → String) (header : Option String)
    (body : String) : Bool :=
  match header with
  | none => false
  | some h =>
    listStarts "sha256=".data h.data &&
      (h.data.drop 7).all (fun c => (hexDigitVal c).isSome) &&
      decide ((h.data.drop 7).length % 2 = 0) &&
      (decodePairs (h.data.drop 7) == hexBytes (hmac body).data ||
        decodePairs (h.data.drop 7) == hexBytes (hmac (toggleNl body)).data)

/-- A digest function producing a 64-character lowercase hex string, the
shape of a real HMAC-SHA256 hex digest. -/
def cxHmac64 : String → String := fun _ => String.mk (List.replicate 64 'a')

/-- A header whose tail is the correct digest followed by a non-hex
character: malformed hex by the claim, accepted by the code. -/
def cxHeaderBang : String := "sha256=" ++ String.mk (List.replicate 64 'a') ++ "!"

/-- C3 (counterexample): the code accepts a header whose hex part is
malformed (correct 64-digit digest followed by `!`), because Node's
`Buffer.from(hex)` silently truncates at the first invalid digit; the
claim requires malformed hex to yield false. -/
theorem c3_malformed_hex_accepted :
    verifyHmacHeader cxHmac64 (some cxHeaderBang) "b" = true ∧
    claimedSigAccepts cxHmac64 (some cxHeaderBang) "b" = false :=
  ⟨by decide, by decide⟩

-- C4: content hash and key ordering.

